import Mathlib

/-!
Verification development for the 3DGridWorld termite-construction simulator.

The Python sources are shallowly embedded:
* the voxel world (`code/classes.py : World`) becomes a record with a grid
  function `ℕ → ℕ → ℕ → ℤ` over canonical in-bounds indices, plus the
  parallel `times` tensor (the `field`/`pheromones` tensors are never read
  by the claims under study and are omitted);
* numpy indexing with possibly negative indices is modelled by `npIndex`,
  mapping an integer index to its canonical cell (negative indices in
  `[-n, -1]` wrap, everything else raises `IndexError`), and grid reads /
  writes return `Except String`;
* material codes are the integers used by the source:
  Empty = 0, Soil = 1, Obstacle = -1, AgentOccupied = -2, Built = 2;
* floats are modelled by `ℝ` (probabilities) and `ℚ` (edge counters);
* randomness becomes an explicit input (the drawn value / index), or a
  `PMF` when a whole distribution is compared.
-/

namespace GridWorld3D

/-- Positions handed to grid operations are integer triples, as numpy
accepts negative indices. -/
abbrev Pos : Type := ℤ × ℤ × ℤ

/-- Componentwise addition of a position and a direction vector. -/
def addPos (p d : Pos) : Pos := (p.1 + d.1, p.2.1 + d.2.1, p.2.2 + d.2.2)

/-- numpy index resolution for one axis of size `n`: indices in `[0, n)`
are taken as is, indices in `[-n, 0)` wrap to `i + n`, anything else is
out of range (`none`, an `IndexError` in numpy). -/
def npIndex (n : ℕ) (i : ℤ) : Option ℕ :=
  if 0 ≤ i ∧ i < (n : ℤ) then some i.toNat
  else if -(n : ℤ) ≤ i ∧ i < 0 then some (i + (n : ℤ)).toNat
  else none

/-- The canonical cell an in-range (possibly negative) index resolves to. -/
def npWrap (n : ℕ) (i : ℤ) : ℕ :=
  if 0 ≤ i then i.toNat else (i + (n : ℤ)).toNat

/-- An integer index is accepted by numpy for an axis of size `n`
iff it lies in `[-n, n)`. -/
def inIdx (n : ℕ) (i : ℤ) : Prop := -(n : ℤ) ≤ i ∧ i < (n : ℤ)

instance (n : ℕ) (i : ℤ) : Decidable (inIdx n i) := by
  unfold inIdx; infer_instance

theorem npIndex_eq_some_wrap (n : ℕ) (i : ℤ) (h : inIdx n i) :
    npIndex n i = some (npWrap n i) := by
  rcases h with ⟨h1, h2⟩
  by_cases h0 : 0 ≤ i
  · simp [npIndex, npWrap, h0, h2]
  · simp [npIndex, npWrap, h0, h1, lt_of_not_le h0]

theorem npIndex_eq_none (n : ℕ) (i : ℤ) (h : ¬ inIdx n i) :
    npIndex n i = none := by
  unfold npIndex inIdx at *
  split_ifs with h1 h2
  · exfalso; omega
  · exfalso; omega
  · rfl

/-- The voxel world of `code/classes.py : World`: a `width × length ×
height` grid of material codes and the per-voxel last-deposition-time
tensor, stored over canonical (non-negative, in-bounds) indices. -/
structure World where
  width : ℕ
  length : ℕ
  height : ℕ
  soil_height : ℕ
  grid : ℕ → ℕ → ℕ → ℤ
  times : ℕ → ℕ → ℕ → ℤ

/-- `World.__init__`: soil code 1 fills the layers `z < soil_height`,
the listed obstacle voxels are overwritten with the code -1, every other
cell is empty (0), and the time tensor is the far-past sentinel
`-10^9` everywhere.  Obstacles are given as the list of coordinates where
the source's object mask holds 1. -/
def World.init (width length height soil_height : ℕ)
    (objects : List (ℕ × ℕ × ℕ)) : World :=
  ⟨width, length, height, soil_height,
   fun x y z => if (x, y, z) ∈ objects then -1 else if z < soil_height then 1 else 0,
   fun _ _ _ => -(10 ^ 9)⟩

/-- Write a material code at a canonical cell. -/
def setCell (w : World) (a b c : ℕ) (v : ℤ) : World :=
  ⟨w.width, w.length, w.height, w.soil_height,
   fun x y z => if x = a ∧ y = b ∧ z = c then v else w.grid x y z,
   w.times⟩

/-- Write a timestamp at a canonical cell. -/
def setTimeCell (w : World) (a b c : ℕ) (v : ℤ) : World :=
  ⟨w.width, w.length, w.height, w.soil_height, w.grid,
   fun x y z => if x = a ∧ y = b ∧ z = c then v else w.times x y z⟩

/-- Resolve a (possibly negative) index triple against the grid bounds. -/
def resolve (w : World) (p : Pos) : Option (ℕ × ℕ × ℕ) :=
  match npIndex w.width p.1, npIndex w.length p.2.1, npIndex w.height p.2.2 with
  | some a, some b, some c => some (a, b, c)
  | _, _, _ => none

/-- `world.grid[x, y, z]` with numpy index semantics. -/
def gridGet (w : World) (p : Pos) : Except String ℤ :=
  match resolve w p with
  | some (a, b, c) => .ok (w.grid a b c)
  | none => .error "IndexError"

/-- `world.grid[x, y, z] = v` with numpy index semantics. -/
def gridSet (w : World) (p : Pos) (v : ℤ) : Except String World :=
  match resolve w p with
  | some (a, b, c) => .ok (setCell w a b c v)
  | none => .error "IndexError"

/-- `world.times[x, y, z] = v` with numpy index semantics. -/
def timesSet (w : World) (p : Pos) (v : ℤ) : Except String World :=
  match resolve w p with
  | some (a, b, c) => .ok (setTimeCell w a b c v)
  | none => .error "IndexError"

/-- Modelled from the spec: the neighbourhood reads of the missing
`functions.py : local_grid_data` / `valid_moves`.  The grid value at a
position as an `Option`: cells outside the canonical bounds `[0, size)`
are simply absent, as the specification's clipping makes them. -/
def gridVal (w : World) (p : Pos) : Option ℤ :=
  if 0 ≤ p.1 ∧ p.1 < (w.width : ℤ) ∧ 0 ≤ p.2.1 ∧ p.2.1 < (w.length : ℤ) ∧
     0 ≤ p.2.2 ∧ p.2.2 < (w.height : ℤ) then
    some (w.grid p.1.toNat p.2.1.toNat p.2.2.toNat)
  else none

instance {ε α : Type} [DecidableEq ε] [DecidableEq α] :
    DecidableEq (Except ε α) := fun x y =>
  match x, y with
  | .ok a, .ok b => decidable_of_iff (a = b) (by simp)
  | .error e, .error f => decidable_of_iff (e = f) (by simp)
  | .ok _, .error _ => isFalse (by simp)
  | .error _, .ok _ => isFalse (by simp)

/-- An agent of `code/classes.py : Agent`: a position and the
carrying flag (1 when laden, 0 otherwise). -/
structure Agent where
  pos : Pos
  has_pellet : ℕ

/-- `Agent.move`: clear the old cell to Empty, update the position and
re-place the agent (write `AgentOccupied` at the new cell). -/
def Agent.move (a : Agent) (w : World) (new_pos : Pos) :
    Except String (Agent × World) := do
  let w1 ← gridSet w a.pos 0
  let w2 ← gridSet w1 new_pos (-2)
  .ok (⟨new_pos, a.has_pellet⟩, w2)

/-- `Agent.pickup`: clear the voxel below and the current voxel, move
down one level, set the carrying flag and re-place the agent there. -/
def Agent.pickup (a : Agent) (w : World) : Except String (Agent × World) := do
  let p := a.pos
  let w1 ← gridSet w (p.1, p.2.1, p.2.2 - 1) 0
  let w2 ← gridSet w1 (p.1, p.2.1, p.2.2) 0
  let w3 ← gridSet w2 (p.1, p.2.1, p.2.2 - 1) (-2)
  .ok (⟨(p.1, p.2.1, p.2.2 - 1), 1⟩, w3)

/-- `Agent.drop`: write `Built` at the current voxel, clear the carrying
flag and re-place the agent at the chosen new position. -/
def Agent.drop (a : Agent) (w : World) (new_pos : Pos) :
    Except String (Agent × World) := do
  let w1 ← gridSet w a.pos 2
  let w2 ← gridSet w1 new_pos (-2)
  .ok (⟨new_pos, 0⟩, w2)

/-! Khuong decision-policy functions (`khuong/khuong_algorithms.py`).
Floats are modelled by real numbers. -/

/-- `eta_p`: the pickup rate, `0.029` for `N = 0` and `0.029 / N`
otherwise. -/
noncomputable def eta_p (N : ℕ) : ℝ :=
  if N = 0 then 0.029 else 0.029 / (N : ℝ)

/-- `eta_d`: the dropping rate, `0.025` for `N = 0` and
`0.025 + 0.11 * N` otherwise. -/
noncomputable def eta_d (N : ℕ) : ℝ :=
  if N = 0 then 0.025 else 0.025 + 0.11 * (N : ℝ)

/-- `prob_pickup`: `1 - e^(-eta_p N)`. -/
noncomputable def prob_pickup (N : ℕ) : ℝ := 1 - Real.exp (-(eta_p N))

/-- Density of the standard normal distribution. -/
noncomputable def stdNormalPdf (t : ℝ) : ℝ :=
  Real.exp (-(t ^ 2) / 2) / Real.sqrt (2 * Real.pi)

/-- Cumulative distribution function of the standard normal. -/
noncomputable def stdNormalCdf (x : ℝ) : ℝ :=
  ∫ t in Set.Iic x, stdNormalPdf t

/-- Density of a skew-normal distribution with shape `a`, location `loc`
and scale `scale`. -/
noncomputable def skewnormPdf (a loc scale x : ℝ) : ℝ :=
  (2 / scale) * stdNormalPdf ((x - loc) / scale) * stdNormalCdf (a * ((x - loc) / scale))

/-- Cumulative distribution function of the skew-normal distribution,
`scipy.stats.skewnorm.cdf`. -/
noncomputable def skewnormCdf (a loc scale x : ℝ) : ℝ :=
  ∫ t in Set.Iic x, skewnormPdf a loc scale t

/-- `mod_list`: the height-modulation table, the skew-normal CDF with
shape 8.582, location 2.866 and scale 3.727 sampled at `k / 2` for
`k = 0, …, 199` (`skewnorm.cdf(x=np.array(range(200))/2, ...)`). -/
noncomputable def mod_list : List ℝ :=
  (List.range 200).map (fun (k : ℕ) => skewnormCdf 8.582 2.866 3.727 ((k : ℝ) / 2))

/-- `prob_drop`: `0.025` when `N = 0`; otherwise
`1 - e^(-eta_d N * e^(-(t_now - t_latest) * decay_rate))`, multiplied by
the table entry `mod_list[h]` when `h > 0`.  The table lookup is the
numpy indexing `mod_list[h]`, which raises `IndexError` for `h ≥ 200`;
the failing lookup is modelled by `none`. -/
noncomputable def prob_drop (N : ℕ) (t_now t_latest : ℤ) (decay_rate : ℝ) (h : ℕ) :
    Option ℝ :=
  if N = 0 then some 0.025
  else
    let tau : ℝ := ((t_now - t_latest : ℤ) : ℝ)
    let prob := 1 - Real.exp (-(eta_d N) * Real.exp (-tau * decay_rate))
    if h > 0 then (mod_list.get? h).map (fun m => prob * m)
    else some prob

/-! Neighbourhood helpers.  The source file `functions.py`
(`local_grid_data`, `valid_moves`, `random_move_direction`,
`compute_height`) is not part of the sources under study, so these are
modelled from the specification. -/

/-- The 26 direction vectors of the cube neighbourhood. -/
def dirs26 : List Pos :=
  (([-1, 0, 1].flatMap fun dx =>
    [-1, 0, 1].flatMap fun dy =>
      [-1, 0, 1].map fun dz => ((dx : ℤ), (dy : ℤ), (dz : ℤ)))).filter
    (fun d => d ≠ ((0 : ℤ), (0 : ℤ), (0 : ℤ)))

/-- Modelled from the spec: `local_grid_data` inspects the 26-voxel cube
neighbourhood; `N` is the count of `Built` voxels in it (cells outside
the grid are clipped away, and the centre voxel is excluded). -/
def countBuilt (w : World) (p : Pos) : ℕ :=
  (dirs26.filter (fun d => gridVal w (addPos p d) = some 2)).length

/-- Modelled from the spec: `valid_moves` filters the 26-neighbourhood
to in-bounds, unoccupied, non-obstacle target voxels (the `Empty`
code 0), returning the list of admissible direction vectors. -/
def valid_moves (w : World) (p : Pos) : List Pos :=
  dirs26.filter (fun d => gridVal w (addPos p d) = some 0)

/-- Modelled from the spec: `compute_height` is the vertical distance of
the position above the soil surface. -/
def compute_height (p : Pos) (w : World) : ℕ :=
  (p.2.2 - (w.soil_height : ℤ)).toNat

/-- The 27 offsets of the cube neighbourhood including the centre. -/
def offs27 : List Pos :=
  [-1, 0, 1].flatMap fun dx =>
    [-1, 0, 1].flatMap fun dy =>
      [-1, 0, 1].map fun dz => ((dx : ℤ), (dy : ℤ), (dz : ℤ))

/-- The time-tensor value at a position, when inside the canonical
bounds (the source's slice `[max(0, x-1) : x+2, …]` clips to them). -/
def timesVal (w : World) (p : Pos) : Option ℤ :=
  if 0 ≤ p.1 ∧ p.1 < (w.width : ℤ) ∧ 0 ≤ p.2.1 ∧ p.2.1 < (w.length : ℤ) ∧
     0 ≤ p.2.2 ∧ p.2.2 < (w.height : ℤ) then
    some (w.times p.1.toNat p.2.1.toNat p.2.2.toNat)
  else none

/-- `np.max(world.times[max(0,x-1):x+2, max(0,y-1):y+2, max(0,z-1):z+2])`:
the latest deposition time over the 3×3×3 neighbourhood clipped to the
grid bounds.  The fold starts from the tensor's initialisation sentinel
`-10^9`, a lower bound of every entry. -/
def t_latest (w : World) (p : Pos) : ℤ :=
  ((offs27.filterMap (fun d => timesVal w (addPos p d))).foldl max (-(10 ^ 9)))

/-! The pickup and drop algorithms of `khuong/khuong_algorithms.py`.
The uniform draw `x_rand` is an explicit real input; the uniform choice
among candidate moves is an explicit index input `choice`. -/

open Classical in
/-- `pickup_algorithm`: if the voxel below holds material (code `> 0`)
and the draw is below `prob_pickup N`, remove that material (set the
voxel below to Empty) and return it; otherwise return `None` and leave
the world untouched. -/
noncomputable def pickup_algorithm (p : Pos) (w : World) (x_rand : ℝ) :
    Except String (Option ℤ × World) := do
  let below ← gridGet w (p.1, p.2.1, p.2.2 - 1)
  if 0 < below then
    let N := countBuilt w p
    if x_rand < prob_pickup N then
      let w1 ← gridSet w (p.1, p.2.1, p.2.2 - 1) 0
      .ok (some below, w1)
    else .ok (none, w)
  else .ok (none, w)

open Classical in
/-- `drop_algorithm`: act only when a valid relocation move exists; then
accept iff the draw is below `prob_drop`; on acceptance write `Built` at
the current voxel, stamp the time tensor and return the relocation
target.  A failing `mod_list` lookup inside `prob_drop` propagates as an
`IndexError`. -/
noncomputable def drop_algorithm (p : Pos) (w : World) (step : ℤ)
    (decay_rate : ℝ) (x_rand : ℝ) (choice : ℕ) :
    Except String (Option Pos × World) :=
  let moves := valid_moves w p
  if moves = [] then .ok (none, w)
  else
    let N := countBuilt w p
    let tl := t_latest w p
    let h := compute_height p w
    match prob_drop N step tl decay_rate h with
    | none => .error "IndexError"
    | some prob =>
      if x_rand < prob then do
        let d := moves.getD (choice % moves.length) ((0 : ℤ), (0 : ℤ), (0 : ℤ))
        let w1 ← gridSet w p 2
        let w2 ← timesSet w1 p step
        .ok (some (addPos p d), w2)
      else .ok (none, w)

/-! The two local-walk variants, `move_algorithm` and
`move_algorithm_new`.  Both first clear the start voxel, walk up to `m`
single steps reading the (now static) grid, and finally write
`AgentOccupied` at the end position; the loops are modelled as
distributions over end positions on that static grid.  `move_algorithm`
materialises `valid_moves` and samples one uniformly, doing nothing in
an iteration with no candidates; `move_algorithm_new` asks
`random_move_direction` — modelled from the spec as a uniformly sampled
valid direction, or `None` when none exists — and breaks on `None`. -/

/-- A nonempty candidate list yields a nonempty finset. -/
theorem toFinset_nonempty_of_ne_nil {l : List Pos} (h : l ≠ []) :
    l.toFinset.Nonempty := by
  cases l with
  | nil => exact absurd rfl h
  | cons a t => exact ⟨a, by simp⟩

/-- One-tick end-position distribution of `move_algorithm`: each of the
`m` iterations samples uniformly from the materialised `valid_moves`
list if it is nonempty, and otherwise leaves the position unchanged for
that iteration. -/
noncomputable def walkDist (w : World) : ℕ → Pos → PMF Pos
  | 0, p => PMF.pure p
  | m + 1, p =>
    if h : valid_moves w p = [] then walkDist w m p
    else
      (PMF.uniformOfFinset (valid_moves w p).toFinset
        (toFinset_nonempty_of_ne_nil h)).bind
        (fun d => walkDist w m (addPos p d))

/-- One-tick end-position distribution of `move_algorithm_new`.
Modelled from the spec: `random_move_direction` (in the missing
`functions.py`) samples a valid direction uniformly without
materialising the candidate list, returning `None` when no valid
direction exists; the loop breaks on `None`. -/
noncomputable def walkDistNew (w : World) : ℕ → Pos → PMF Pos
  | 0, p => PMF.pure p
  | m + 1, p =>
    if h : valid_moves w p = [] then PMF.pure p
    else
      (PMF.uniformOfFinset (valid_moves w p).toFinset
        (toFinset_nonempty_of_ne_nil h)).bind
        (fun d => walkDistNew w m (addPos p d))

/-! The surface graph of `code/classes.py : Surface`.  The ordered
dictionary `graph` is modelled by the key list `verts` plus the
adjacency function `adj` (meaningful on keys); `degrees` is likewise a
function on keys.  `num_edges` is accumulated with Python's true
division, modelled exactly in `ℚ`.  Accessing an absent dictionary key
raises `KeyError`. -/

/-- State of a `Surface` graph over vertices `V`. -/
structure Surface (V : Type) where
  verts : List V
  adj : V → List V
  degrees : V → ℤ
  num_edges : ℚ

/-- `Surface.__init__`: copy the seed adjacency, set each degree to the
length of the vertex's adjacency list and accumulate
`num_edges += deg / 2` over the keys. -/
def Surface.ofGraph {V : Type} (vs : List V) (adj0 : V → List V) : Surface V :=
  ⟨vs, adj0, fun v => ((adj0 v).length : ℤ),
   (vs.map (fun v => ((adj0 v).length : ℚ) / 2)).sum⟩

/-- The successful branch of `Surface.add_edge`: append each endpoint to
the other's adjacency list (in source order), increment both degrees and
increment the edge counter. -/
def addEdgeCore {V : Type} [DecidableEq V] (S : Surface V) (pair : V × V) :
    Surface V :=
  ⟨S.verts,
   fun u =>
     let l1 := if u = pair.1 then S.adj u ++ [pair.2] else S.adj u
     if u = pair.2 then l1 ++ [pair.1] else l1,
   fun u => S.degrees u + (if u = pair.1 then 1 else 0) + (if u = pair.2 then 1 else 0),
   S.num_edges + 1⟩

/-- `Surface.add_edge`: the dictionary accesses `graph[v1]` and
`graph[v2]` raise `KeyError` when an endpoint is not a vertex (Python
performs the first append before the second access can fail; that
partial mutation is unobservable through the claims studied here, so
the error branch carries no state). -/
def Surface.add_edge {V : Type} [DecidableEq V] (S : Surface V) (pair : V × V) :
    Except String (Surface V) :=
  if pair.1 ∈ S.verts then
    if pair.2 ∈ S.verts then .ok (addEdgeCore S pair)
    else .error "KeyError"
  else .error "KeyError"

/-- The loop of `Surface.remove_vertex`: for each neighbour of the
removed vertex, strike the vertex from that neighbour's adjacency list
(`list.remove` deletes the first occurrence), decrement its degree and
decrement the edge counter. -/
def removeLoop {V : Type} [DecidableEq V] (v : V) :
    List V → (V → List V) → (V → ℤ) → ℚ → ((V → List V) × (V → ℤ) × ℚ)
  | [], adj, degs, E => (adj, degs, E)
  | nbr :: rest, adj, degs, E =>
    removeLoop v rest
      (Function.update adj nbr ((adj nbr).erase v))
      (Function.update degs nbr (degs nbr - 1))
      (E - 1)

/-- The successful branch of `Surface.remove_vertex`: run the neighbour
loop, then delete the vertex's own dictionary entries (drop it from the
key list).  Self-loop aliasing of the Python iteration cannot arise:
reachable graphs never list a vertex in its own adjacency. -/
def removeVertexCore {V : Type} [DecidableEq V] (S : Surface V) (v : V) :
    Surface V :=
  let res := removeLoop v (S.adj v) S.adj S.degrees S.num_edges
  ⟨S.verts.erase v, res.1, res.2.1, res.2.2⟩

/-- `Surface.remove_vertex`: the access `graph[vertex]` raises
`KeyError` when the vertex is absent. -/
def Surface.remove_vertex {V : Type} [DecidableEq V] (S : Surface V) (v : V) :
    Except String (Surface V) :=
  if v ∈ S.verts then .ok (removeVertexCore S v) else .error "KeyError"

/-- Python float division of `numerator / denominator` as numpy performs
it: a zero denominator silently produces a non-finite value (modelled
`none`) instead of raising. -/
def fdivQ (a b : ℚ) : Option ℚ :=
  if b = 0 then none else some (a / b)

/-- `Surface.get_rw_stationary_distribution`:
`np.fromiter(degrees.values()) / (2 * num_edges)`, one entry per vertex
in key order.  There is no guard on `num_edges`: a zero edge count
divides by zero silently. -/
def Surface.get_rw_stationary_distribution {V : Type} (S : Surface V) :
    List (Option ℚ) :=
  S.verts.map (fun v => fdivQ ((S.degrees v : ℚ)) (2 * S.num_edges))

/-- Well-formedness invariant of a surface graph: distinct keys,
duplicate-free and irreflexive adjacency closed over the key list,
symmetric adjacency, degrees matching adjacency lengths and the edge
counter equal to half the total adjacency length. -/
def Surface.WF {V : Type} (S : Surface V) : Prop :=
  S.verts.Nodup ∧
  (∀ v ∈ S.verts, (S.adj v).Nodup) ∧
  (∀ v ∈ S.verts, v ∉ S.adj v) ∧
  (∀ v ∈ S.verts, ∀ u ∈ S.adj v, u ∈ S.verts) ∧
  (∀ u ∈ S.verts, ∀ v ∈ S.verts, (u ∈ S.adj v ↔ v ∈ S.adj u)) ∧
  (∀ v ∈ S.verts, S.degrees v = ((S.adj v).length : ℤ)) ∧
  S.num_edges = (S.verts.map (fun v => ((S.adj v).length : ℚ))).sum / 2

/-- A seed adjacency is well formed when its keys are distinct and its
adjacency lists are duplicate-free, irreflexive, closed over the keys
and symmetric. -/
def SeedWF {V : Type} (vs : List V) (adj0 : V → List V) : Prop :=
  vs.Nodup ∧
  (∀ v ∈ vs, (adj0 v).Nodup) ∧
  (∀ v ∈ vs, v ∉ adj0 v) ∧
  (∀ v ∈ vs, ∀ u ∈ adj0 v, u ∈ vs) ∧
  (∀ u ∈ vs, ∀ v ∈ vs, (u ∈ adj0 v ↔ v ∈ adj0 u))

/-- Surface-graph states reachable from a well-formed symmetric seed by
`add_edge` calls respecting their preconditions (both endpoints present,
the two endpoints distinct — an edge joins two surface vertices — and
the edge not already present) and `remove_vertex` calls on present
vertices. -/
inductive SReach {V : Type} [DecidableEq V] : Surface V → Prop
  | seed (vs : List V) (adj0 : V → List V) (h : SeedWF vs adj0) :
      SReach (Surface.ofGraph vs adj0)
  | add (S : Surface V) (hS : SReach S) (pair : V × V)
      (h1 : pair.1 ∈ S.verts) (h2 : pair.2 ∈ S.verts)
      (hne : pair.1 ≠ pair.2) (hdup : pair.2 ∉ S.adj pair.1) :
      SReach (addEdgeCore S pair)
  | remove (S : Surface V) (hS : SReach S) (v : V) (hv : v ∈ S.verts) :
      SReach (removeVertexCore S v)

/-! List-sum helpers for the bookkeeping invariant. -/

theorem sum_map_add_distrib {V : Type} (l : List V) (f g : V → ℚ) :
    (l.map (fun x => f x + g x)).sum = (l.map f).sum + (l.map g).sum := by
  induction l with
  | nil => simp
  | cons a t ih => simp [ih]; ring

theorem sum_map_half {V : Type} (l : List V) (f : V → ℚ) :
    (l.map (fun x => f x / 2)).sum = (l.map f).sum / 2 := by
  induction l with
  | nil => simp
  | cons a t ih => simp [ih]; ring

theorem sum_map_erase {V : Type} [DecidableEq V] (l : List V) (f : V → ℚ)
    (v : V) (hv : v ∈ l) :
    (l.map f).sum = f v + ((l.erase v).map f).sum := by
  have hperm : l.Perm (v :: l.erase v) := List.perm_cons_erase hv
  have := (hperm.map f).sum_eq
  simpa using this

theorem sum_map_indicator_eq_zero {V : Type} [DecidableEq V] (l : List V)
    (a : V) (ha : a ∉ l) :
    (l.map (fun x => if x = a then (1 : ℚ) else 0)).sum = 0 := by
  apply List.sum_eq_zero
  intro x hx
  rcases List.mem_map.mp hx with ⟨y, hy, hxy⟩
  have : y ≠ a := fun hya => ha (hya ▸ hy)
  simpa [this] using hxy.symm

theorem sum_map_indicator_eq_one {V : Type} [DecidableEq V] (l : List V)
    (a : V) (hnd : l.Nodup) (ha : a ∈ l) :
    (l.map (fun x => if x = a then (1 : ℚ) else 0)).sum = 1 := by
  have h1 := sum_map_erase l (fun x => if x = a then (1 : ℚ) else 0) a ha
  have h2 := sum_map_indicator_eq_zero (l.erase a) a
    (fun hmem => ((hnd.mem_erase_iff).mp hmem).1 rfl)
  rw [h1, h2]
  simp

theorem sum_map_mem_indicator {V : Type} [DecidableEq V]
    (nbrs l : List V) (hn : nbrs.Nodup) (hl : l.Nodup)
    (hsub : ∀ x ∈ nbrs, x ∈ l) :
    (l.map (fun u => if u ∈ nbrs then (1 : ℚ) else 0)).sum = nbrs.length := by
  induction nbrs with
  | nil => simp
  | cons n rest ih =>
    have hn2 := List.nodup_cons.mp hn
    have hsplit : ∀ u : V,
        (if u ∈ n :: rest then (1 : ℚ) else 0) =
        (if u = n then (1 : ℚ) else 0) + (if u ∈ rest then (1 : ℚ) else 0) := by
      intro u
      by_cases h1 : u = n
      · subst h1
        simp [hn2.1]
      · by_cases h2 : u ∈ rest <;> simp [h1, h2]
    calc (l.map (fun u => if u ∈ n :: rest then (1 : ℚ) else 0)).sum
        = (l.map (fun u =>
            (if u = n then (1 : ℚ) else 0) + (if u ∈ rest then (1 : ℚ) else 0))).sum := by
          exact congrArg List.sum (List.map_congr_left (fun u _ => hsplit u))
      _ = (l.map (fun u => if u = n then (1 : ℚ) else 0)).sum +
          (l.map (fun u => if u ∈ rest then (1 : ℚ) else 0)).sum :=
          sum_map_add_distrib l _ _
      _ = ((n :: rest).length : ℚ) := by
          rw [sum_map_indicator_eq_one l n hl (hsub n (List.mem_cons_self n rest)),
            ih hn2.2 (fun x hx => hsub x (List.mem_cons_of_mem n hx))]
          push_cast [List.length_cons]
          ring

/-! Pointwise descriptions of the two surface mutations. -/

theorem removeLoop_adj {V : Type} [DecidableEq V] (v : V) (l : List V) :
    ∀ (adj : V → List V) (degs : V → ℤ) (E : ℚ) (u : V), l.Nodup →
      (removeLoop v l adj degs E).1 u =
        if u ∈ l then (adj u).erase v else adj u := by
  induction l with
  | nil =>
    intro adj degs E u _
    simp [removeLoop]
  | cons nbr rest ih =>
    intro adj degs E u hnd
    have hn2 := List.nodup_cons.mp hnd
    have hstep : removeLoop v (nbr :: rest) adj degs E =
        removeLoop v rest (Function.update adj nbr ((adj nbr).erase v))
          (Function.update degs nbr (degs nbr - 1)) (E - 1) := rfl
    rw [hstep, ih _ _ _ u hn2.2]
    by_cases hu : u ∈ rest
    · have hune : u ≠ nbr := fun h => hn2.1 (h ▸ hu)
      simp [hu, hune, Function.update_apply, List.mem_cons]
    · by_cases hun : u = nbr
      · subst hun
        simp [hu, Function.update_apply]
      · simp [hu, hun, Function.update_apply, List.mem_cons]

theorem removeLoop_degs {V : Type} [DecidableEq V] (v : V) (l : List V) :
    ∀ (adj : V → List V) (degs : V → ℤ) (E : ℚ) (u : V), l.Nodup →
      (removeLoop v l adj degs E).2.1 u =
        if u ∈ l then degs u - 1 else degs u := by
  induction l with
  | nil =>
    intro adj degs E u _
    simp [removeLoop]
  | cons nbr rest ih =>
    intro adj degs E u hnd
    have hn2 := List.nodup_cons.mp hnd
    have hstep : removeLoop v (nbr :: rest) adj degs E =
        removeLoop v rest (Function.update adj nbr ((adj nbr).erase v))
          (Function.update degs nbr (degs nbr - 1)) (E - 1) := rfl
    rw [hstep, ih _ _ _ u hn2.2]
    by_cases hu : u ∈ rest
    · have hune : u ≠ nbr := fun h => hn2.1 (h ▸ hu)
      simp [hu, hune, Function.update_apply, List.mem_cons]
    · by_cases hun : u = nbr
      · subst hun
        simp [hu, Function.update_apply]
      · simp [hu, hun, Function.update_apply, List.mem_cons]

theorem removeLoop_edges {V : Type} [DecidableEq V] (v : V) (l : List V) :
    ∀ (adj : V → List V) (degs : V → ℤ) (E : ℚ),
      (removeLoop v l adj degs E).2.2 = E - l.length := by
  induction l with
  | nil =>
    intro adj degs E
    simp [removeLoop]
  | cons nbr rest ih =>
    intro adj degs E
    have hstep : removeLoop v (nbr :: rest) adj degs E =
        removeLoop v rest (Function.update adj nbr ((adj nbr).erase v))
          (Function.update degs nbr (degs nbr - 1)) (E - 1) := rfl
    rw [hstep, ih]
    push_cast [List.length_cons]
    ring

theorem addEdgeCore_adj_eq {V : Type} [DecidableEq V] (S : Surface V)
    (pr : V × V) (u : V) :
    (addEdgeCore S pr).adj u =
      (if u = pr.2 then (if u = pr.1 then S.adj u ++ [pr.2] else S.adj u) ++ [pr.1]
       else (if u = pr.1 then S.adj u ++ [pr.2] else S.adj u)) := rfl

theorem addEdgeCore_adj_mem {V : Type} [DecidableEq V] (S : Surface V)
    (pr : V × V) (hne : pr.1 ≠ pr.2) (u x : V) :
    x ∈ (addEdgeCore S pr).adj u ↔
      x ∈ S.adj u ∨ (u = pr.1 ∧ x = pr.2) ∨ (u = pr.2 ∧ x = pr.1) := by
  rw [addEdgeCore_adj_eq]
  by_cases h1 : u = pr.1
  · have h2 : ¬u = pr.2 := fun h => hne (h1 ▸ h)
    simp [h1, h2, hne]
  · by_cases h2 : u = pr.2
    · simp [h1, h2, Ne.symm hne]
    · simp [h1, h2]

theorem addEdgeCore_adj_len {V : Type} [DecidableEq V] (S : Surface V)
    (pr : V × V) (hne : pr.1 ≠ pr.2) (u : V) :
    (((addEdgeCore S pr).adj u).length : ℚ) =
      ((S.adj u).length : ℚ) + (if u = pr.1 then 1 else 0) +
        (if u = pr.2 then 1 else 0) := by
  rw [addEdgeCore_adj_eq]
  by_cases h1 : u = pr.1
  · have h2 : ¬u = pr.2 := fun h => hne (h1 ▸ h)
    simp [h1, h2, hne]
  · by_cases h2 : u = pr.2
    · simp [h1, h2, Ne.symm hne]
    · simp [h1, h2]

/-! Preservation of the surface invariant by the three state producers. -/

theorem ofGraph_wf {V : Type} (vs : List V) (adj0 : V → List V)
    (h : SeedWF vs adj0) : (Surface.ofGraph vs adj0).WF := by
  obtain ⟨h1, h2, h3, h4, h5⟩ := h
  exact ⟨h1, h2, h3, h4, h5, fun v _ => rfl, sum_map_half vs _⟩

theorem addEdgeCore_wf {V : Type} [DecidableEq V] {S : Surface V}
    (hw : S.WF) {pr : V × V} (h1 : pr.1 ∈ S.verts) (h2 : pr.2 ∈ S.verts)
    (hne : pr.1 ≠ pr.2) (hdup : pr.2 ∉ S.adj pr.1) :
    (addEdgeCore S pr).WF := by
  obtain ⟨w1, w2, w3, w4, w5, w6, w7⟩ := hw
  have hdup2 : pr.1 ∉ S.adj pr.2 :=
    fun hmem => hdup ((w5 pr.1 h1 pr.2 h2).mp hmem)
  have hverts : (addEdgeCore S pr).verts = S.verts := rfl
  refine ⟨by rw [hverts]; exact w1, ?_, ?_, ?_, ?_, ?_, ?_⟩
  · -- adjacency lists stay duplicate-free
    intro v hv
    rw [hverts] at hv
    rw [addEdgeCore_adj_eq]
    by_cases e1 : v = pr.1
    · have e2 : ¬v = pr.2 := fun h => hne (e1 ▸ h)
      subst e1
      simp only [if_pos rfl, if_neg e2]
      exact (List.nodup_append).mpr
        ⟨w2 _ hv, List.nodup_singleton _, by simpa using hdup⟩
    · by_cases e2 : v = pr.2
      · subst e2
        simp only [if_pos rfl, if_neg e1]
        exact (List.nodup_append).mpr
          ⟨w2 _ hv, List.nodup_singleton _, by simpa using hdup2⟩
      · simp only [if_neg e1, if_neg e2]
        exact w2 _ hv
  · -- no self-loops
    intro v hv
    rw [hverts] at hv
    rw [addEdgeCore_adj_mem S pr hne]
    rintro (hmem | ⟨e1, e2⟩ | ⟨e1, e2⟩)
    · exact w3 v hv hmem
    · exact hne (e1 ▸ e2 ▸ rfl)
    · exact hne (e2 ▸ e1 ▸ rfl)
  · -- adjacency closed over the vertex list
    intro v hv u hu
    rw [hverts] at hv ⊢
    rw [addEdgeCore_adj_mem S pr hne] at hu
    rcases hu with hmem | ⟨_, e2⟩ | ⟨_, e2⟩
    · exact w4 v hv u hmem
    · exact e2 ▸ h2
    · exact e2 ▸ h1
  · -- symmetry
    intro u hu v hv
    rw [hverts] at hu hv
    rw [addEdgeCore_adj_mem S pr hne, addEdgeCore_adj_mem S pr hne,
      w5 u hu v hv]
    tauto
  · -- degrees match adjacency lengths
    intro v hv
    rw [hverts] at hv
    have hlen := addEdgeCore_adj_len S pr hne v
    have hdeg : (addEdgeCore S pr).degrees v =
        S.degrees v + (if v = pr.1 then 1 else 0) + (if v = pr.2 then 1 else 0) := rfl
    rw [hdeg, w6 v hv]
    have : (((addEdgeCore S pr).adj v).length : ℚ) =
        (((S.adj v).length : ℤ) : ℚ) + (if v = pr.1 then (1 : ℚ) else 0) +
          (if v = pr.2 then (1 : ℚ) else 0) := by
      rw [hlen]; push_cast; ring
    by_cases e1 : v = pr.1 <;> by_cases e2 : v = pr.2 <;>
      [skip; skip; skip; skip] <;>
      · have hq := this
        simp only [e1, e2, if_pos, if_neg, if_true, if_false] at hq ⊢
        exact_mod_cast hq.symm
  · -- edge counter equals half the total adjacency length
    have hsum : ((addEdgeCore S pr).verts.map
        (fun v => (((addEdgeCore S pr).adj v).length : ℚ))).sum =
        (S.verts.map (fun v => ((S.adj v).length : ℚ))).sum + 2 := by
      rw [hverts]
      have hcong : S.verts.map (fun v => (((addEdgeCore S pr).adj v).length : ℚ)) =
          S.verts.map (fun v => ((S.adj v).length : ℚ) +
            ((if v = pr.1 then (1 : ℚ) else 0) + (if v = pr.2 then (1 : ℚ) else 0))) := by
        apply List.map_congr_left
        intro v _
        rw [addEdgeCore_adj_len S pr hne v]
        ring
      rw [hcong, sum_map_add_distrib, sum_map_add_distrib,
        sum_map_indicator_eq_one S.verts pr.1 w1 h1,
        sum_map_indicator_eq_one S.verts pr.2 w1 h2]
      ring
    have hE : (addEdgeCore S pr).num_edges = S.num_edges + 1 := rfl
    rw [hE, hsum, w7]
    ring

theorem sum_map_sub_distrib {V : Type} (l : List V) (f g : V → ℚ) :
    (l.map (fun x => f x - g x)).sum = (l.map f).sum - (l.map g).sum := by
  induction l with
  | nil => simp
  | cons a t ih => simp [ih]; ring

theorem removeVertexCore_wf {V : Type} [DecidableEq V] {S : Surface V}
    (hw : S.WF) {v : V} (hv : v ∈ S.verts) : (removeVertexCore S v).WF := by
  obtain ⟨w1, w2, w3, w4, w5, w6, w7⟩ := hw
  have hnd : (S.adj v).Nodup := w2 v hv
  have hvn : v ∉ S.adj v := w3 v hv
  have hsub : ∀ x ∈ S.adj v, x ∈ S.verts := w4 v hv
  have hverts : (removeVertexCore S v).verts = S.verts.erase v := rfl
  have hadj : ∀ u, (removeVertexCore S v).adj u =
      if u ∈ S.adj v then (S.adj u).erase v else S.adj u :=
    fun u => removeLoop_adj v (S.adj v) S.adj S.degrees S.num_edges u hnd
  have hdeg : ∀ u, (removeVertexCore S v).degrees u =
      if u ∈ S.adj v then S.degrees u - 1 else S.degrees u :=
    fun u => removeLoop_degs v (S.adj v) S.adj S.degrees S.num_edges u hnd
  have hE : (removeVertexCore S v).num_edges =
      S.num_edges - (S.adj v).length :=
    removeLoop_edges v (S.adj v) S.adj S.degrees S.num_edges
  -- membership in a post-removal adjacency list, for elements other than v
  have hmem : ∀ u, ∀ x, x ≠ v →
      (x ∈ (removeVertexCore S v).adj u ↔ x ∈ S.adj u) := by
    intro u x hxv
    rw [hadj u]
    by_cases hu : u ∈ S.adj v
    · rw [if_pos hu]
      exact List.mem_erase_of_ne hxv
    · rw [if_neg hu]
  refine ⟨w1.erase v, ?_, ?_, ?_, ?_, ?_, ?_⟩
  · -- adjacency lists stay duplicate-free
    intro u hu
    have hu' : u ∈ S.verts := List.mem_of_mem_erase hu
    rw [hadj u]
    by_cases hm : u ∈ S.adj v
    · rw [if_pos hm]; exact (w2 u hu').erase v
    · rw [if_neg hm]; exact w2 u hu'
  · -- no self-loops
    intro u hu
    have hu' : u ∈ S.verts := List.mem_of_mem_erase hu
    rw [hadj u]
    by_cases hm : u ∈ S.adj v
    · rw [if_pos hm]
      exact fun hcontra => w3 u hu' (List.mem_of_mem_erase hcontra)
    · rw [if_neg hm]
      exact w3 u hu'
  · -- adjacency closed over the vertex list
    intro u hu x hx
    have hu' : u ∈ S.verts := List.mem_of_mem_erase hu
    rw [hverts] at hu ⊢
    rw [hadj u] at hx
    by_cases hm : u ∈ S.adj v
    · rw [if_pos hm] at hx
      have hx2 := ((w2 u hu').mem_erase_iff).mp hx
      exact (w1.mem_erase_iff).mpr ⟨hx2.1, w4 u hu' x hx2.2⟩
    · rw [if_neg hm] at hx
      have hxv : x ≠ v := by
        intro hxv
        exact hm ((w5 v hv u hu').mp (hxv ▸ hx))
      exact (w1.mem_erase_iff).mpr ⟨hxv, w4 u hu' x hx⟩
  · -- symmetry
    intro u hu t ht
    have hu' : u ∈ S.verts := List.mem_of_mem_erase hu
    have ht' : t ∈ S.verts := List.mem_of_mem_erase ht
    have huv : u ≠ v := ((w1.mem_erase_iff).mp hu).1
    have htv : t ≠ v := ((w1.mem_erase_iff).mp ht).1
    rw [hmem t u huv, hmem u t htv]
    exact w5 u hu' t ht'
  · -- degrees match adjacency lengths
    intro u hu
    have hu' : u ∈ S.verts := List.mem_of_mem_erase hu
    rw [hdeg u, hadj u]
    by_cases hm : u ∈ S.adj v
    · rw [if_pos hm, if_pos hm, w6 u hu']
      have hvm : v ∈ S.adj u := (w5 u hu' v hv).mp hm
      have hlen := List.length_erase_of_mem hvm
      have hpos : 0 < (S.adj u).length := List.length_pos_of_mem hvm
      rw [hlen]
      omega
    · rw [if_neg hm, if_neg hm]
      exact w6 u hu'
  · -- edge counter equals half the total adjacency length
    have hptwise : ∀ u ∈ S.verts.erase v,
        (((removeVertexCore S v).adj u).length : ℚ) =
          ((S.adj u).length : ℚ) - (if u ∈ S.adj v then 1 else 0) := by
      intro u hu
      have hu' : u ∈ S.verts := List.mem_of_mem_erase hu
      rw [hadj u]
      by_cases hm : u ∈ S.adj v
      · rw [if_pos hm, if_pos hm]
        have hvm : v ∈ S.adj u := (w5 u hu' v hv).mp hm
        have hpos : 1 ≤ (S.adj u).length := List.length_pos_of_mem hvm
        rw [List.length_erase_of_mem hvm]
        push_cast [hpos]
        ring
      · rw [if_neg hm, if_neg hm]
        simp
    have hsum : ((S.verts.erase v).map
        (fun u => (((removeVertexCore S v).adj u).length : ℚ))).sum =
        (S.verts.map (fun u => ((S.adj u).length : ℚ))).sum -
          ((S.adj v).length : ℚ) - ((S.adj v).length : ℚ) := by
      rw [List.map_congr_left hptwise, sum_map_sub_distrib]
      have e1 : ((S.verts.erase v).map (fun u => ((S.adj u).length : ℚ))).sum =
          (S.verts.map (fun u => ((S.adj u).length : ℚ))).sum -
            ((S.adj v).length : ℚ) := by
        have := sum_map_erase S.verts (fun u => ((S.adj u).length : ℚ)) v hv
        linarith
      have e2 : ((S.verts.erase v).map
          (fun u => if u ∈ S.adj v then (1 : ℚ) else 0)).sum =
          ((S.adj v).length : ℚ) := by
        apply sum_map_mem_indicator (S.adj v) (S.verts.erase v) hnd (w1.erase v)
        intro x hx
        have hxv : x ≠ v := fun hxv => hvn (hxv ▸ hx)
        exact (w1.mem_erase_iff).mpr ⟨hxv, hsub x hx⟩
      rw [e1, e2]
    rw [hE, w7]
    have hgoal : ((removeVertexCore S v).verts.map
        (fun u => (((removeVertexCore S v).adj u).length : ℚ))).sum =
        (S.verts.map (fun u => ((S.adj u).length : ℚ))).sum -
          ((S.adj v).length : ℚ) - ((S.adj v).length : ℚ) := by
      rw [hverts]
      exact hsum
    rw [hgoal]
    ring

/-- Every reachable surface graph is well formed. -/
theorem sreach_wf {V : Type} [DecidableEq V] {S : Surface V}
    (h : SReach S) : S.WF := by
  induction h with
  | seed vs adj0 hs => exact ofGraph_wf vs adj0 hs
  | add S hS pair h1 h2 hne hdup ih => exact addEdgeCore_wf ih h1 h2 hne hdup
  | remove S hS v hv ih => exact removeVertexCore_wf ih hv

theorem sum_map_div_const {V : Type} (l : List V) (f : V → ℚ) (c : ℚ) :
    (l.map (fun x => f x / c)).sum = (l.map f).sum / c := by
  induction l with
  | nil => simp
  | cons a t ih => simp [ih]; ring

/-- C2: for every Surface graph built from a (well-formed) symmetric
seed adjacency and every sequence of `add_edge` / `remove_vertex` calls
respecting their preconditions — both endpoints present, the edge not
already present (an edge joins two distinct surface vertices), the
removed vertex present — the incremental bookkeeping is exact: adjacency
lists are symmetric, `degrees[v]` equals the length of `graph[v]` for
every vertex, and `num_edges` equals the sum of all degrees divided by
two, with no full rebuild (the mutations touch only the affected
entries, as the definitions of `addEdgeCore` / `removeLoop` show). -/
theorem C2_surface_invariants {V : Type} [DecidableEq V] (S : Surface V)
    (h : SReach S) :
    (∀ u ∈ S.verts, ∀ v ∈ S.verts, (u ∈ S.adj v ↔ v ∈ S.adj u)) ∧
    (∀ v ∈ S.verts, S.degrees v = ((S.adj v).length : ℤ)) ∧
    S.num_edges = (S.verts.map (fun v => ((S.degrees v : ℚ)))).sum / 2 := by
  obtain ⟨w1, w2, w3, w4, w5, w6, w7⟩ := sreach_wf h
  refine ⟨w5, w6, ?_⟩
  rw [w7]
  have hcong : S.verts.map (fun v => ((S.degrees v : ℚ))) =
      S.verts.map (fun v => ((S.adj v).length : ℚ)) := by
    apply List.map_congr_left
    intro v hv
    rw [w6 v hv]
    push_cast
    ring
  rw [hcong]

/-- A concrete seed adjacency on vertices 0, 1, 2 holding the single
edge 0-1. -/
def seedAdj : ℕ → List ℕ :=
  fun n => if n = 0 then [1] else if n = 1 then [0] else []

/-- A concrete reachable surface: seed on `[0, 1, 2]`, add the edge
1-2, then remove vertex 0. -/
def surfaceSample : Surface ℕ :=
  removeVertexCore (addEdgeCore (Surface.ofGraph [0, 1, 2] seedAdj) (1, 2)) 0

theorem surfaceSample_reachable : SReach surfaceSample :=
  SReach.remove _
    (SReach.add _ (SReach.seed [0, 1, 2] seedAdj (by unfold SeedWF; decide)) (1, 2)
      (by decide) (by decide) (by decide) (by decide))
    0 (by decide)

/-- Witness for C2 at the concrete reachable surface `surfaceSample`. -/
theorem C2_surface_invariants_witness :
    (∀ u ∈ surfaceSample.verts, ∀ v ∈ surfaceSample.verts,
      (u ∈ surfaceSample.adj v ↔ v ∈ surfaceSample.adj u)) ∧
    (∀ v ∈ surfaceSample.verts,
      surfaceSample.degrees v = ((surfaceSample.adj v).length : ℤ)) ∧
    surfaceSample.num_edges =
      (surfaceSample.verts.map (fun v => ((surfaceSample.degrees v : ℚ)))).sum / 2 :=
  C2_surface_invariants surfaceSample surfaceSample_reachable

/-- C6: `remove_vertex` on an absent vertex and `add_edge` with an
absent endpoint fail with the signalled error (the `KeyError` raised by
the dictionary access, the `GraphConsistencyError` of the design
specification), rather than being recovered or silently ignored. -/
theorem C6_graph_key_errors {V : Type} [DecidableEq V] :
    (∀ (S : Surface V) (v : V), v ∉ S.verts →
      S.remove_vertex v = .error "KeyError") ∧
    (∀ (S : Surface V) (pr : V × V), pr.1 ∉ S.verts ∨ pr.2 ∉ S.verts →
      S.add_edge pr = .error "KeyError") := by
  constructor
  · intro S v hv
    rw [Surface.remove_vertex, if_neg hv]
  · intro S pr hpr
    rw [Surface.add_edge]
    by_cases h1 : pr.1 ∈ S.verts
    · rcases hpr with h | h
      · exact absurd h1 h
      · rw [if_pos h1, if_neg h]
    · rw [if_neg h1]

/-- Witness for C6: on the two-vertex surface over `[0, 1]`, removing
the absent vertex 5 and adding an edge to the absent vertex 5 both
raise. -/
theorem C6_graph_key_errors_witness :
    (Surface.ofGraph [0, 1] seedAdj).remove_vertex 5 = .error "KeyError" ∧
    (Surface.ofGraph [0, 1] seedAdj).add_edge (0, 5) = .error "KeyError" :=
  ⟨C6_graph_key_errors.1 _ 5 (by decide),
   C6_graph_key_errors.2 _ (0, 5) (Or.inr (by decide))⟩

/-- C4 (amended): on a well-formed surface with `num_edges > 0`,
`get_rw_stationary_distribution` returns exactly the vector
`degree(v) / (2 * num_edges)` over the vertices in key order — the
stationary distribution of the simple random walk, summing to 1.  The
zero-edge behaviour is settled by `C4_counterexample`: the code divides
by zero silently instead of raising. -/
theorem C4_stationary_distribution {V : Type} (S : Surface V)
    (hwf : S.WF) (hpos : 0 < S.num_edges) :
    S.get_rw_stationary_distribution =
      S.verts.map (fun v => some ((S.degrees v : ℚ) / (2 * S.num_edges))) ∧
    (S.verts.map (fun v => (S.degrees v : ℚ) / (2 * S.num_edges))).sum = 1 := by
  obtain ⟨w1, w2, w3, w4, w5, w6, w7⟩ := hwf
  have hne : (2 : ℚ) * S.num_edges ≠ 0 := by positivity
  constructor
  · apply List.map_congr_left
    intro v _
    rw [fdivQ, if_neg hne]
  · rw [sum_map_div_const]
    have hcong : S.verts.map (fun v => ((S.degrees v : ℚ))) =
        S.verts.map (fun v => ((S.adj v).length : ℚ)) := by
      apply List.map_congr_left
      intro v hv
      rw [w6 v hv]
      push_cast
      ring
    rw [hcong]
    have hsum : (S.verts.map (fun v => ((S.adj v).length : ℚ))).sum =
        2 * S.num_edges := by
      rw [w7]; ring
    rw [hsum]
    exact div_self hne

/-- A surface with a single isolated vertex: `num_edges = 0`. -/
def surfaceNoEdges : Surface ℕ := Surface.ofGraph [0] (fun _ => [])

/-- Counterexample to C4 as stated: with `num_edges = 0` the call does
not fail — there is no `DegenerateGraphError` (or any guard) in the
code; the division by zero proceeds silently and the call returns a
defined vector whose entry is the non-finite float of `0 / 0`. -/
theorem C4_counterexample :
    surfaceNoEdges.num_edges = 0 ∧
    surfaceNoEdges.get_rw_stationary_distribution = [none] := by
  constructor
  · norm_num [surfaceNoEdges, Surface.ofGraph]
  · norm_num [surfaceNoEdges, Surface.ofGraph,
      Surface.get_rw_stationary_distribution, fdivQ]

/-- Witness for C4 on the two-vertex path graph: the distribution is
`[1/2, 1/2]` and sums to 1. -/
theorem C4_stationary_distribution_witness :
    (Surface.ofGraph [0, 1] seedAdj).get_rw_stationary_distribution =
      (Surface.ofGraph [0, 1] seedAdj).verts.map
        (fun v => some (((Surface.ofGraph [0, 1] seedAdj).degrees v : ℚ) /
          (2 * (Surface.ofGraph [0, 1] seedAdj).num_edges))) ∧
    ((Surface.ofGraph [0, 1] seedAdj).verts.map
      (fun v => ((Surface.ofGraph [0, 1] seedAdj).degrees v : ℚ) /
        (2 * (Surface.ofGraph [0, 1] seedAdj).num_edges))).sum = 1 :=
  C4_stationary_distribution (Surface.ofGraph [0, 1] seedAdj)
    (ofGraph_wf [0, 1] seedAdj (by unfold SeedWF; decide))
    (by norm_num [Surface.ofGraph, seedAdj])

/-! Initial agent placement, `Agent.__init__`
(`code/classes.py:103-120`): numpy computes
`no_obj = np.where(grid[:, :, soil_height] == 0)` and then draws
`x = np.random.choice(no_obj[0])` and `y = np.random.choice(no_obj[1])`
as two INDEPENDENT draws, so any `x` appearing as the row of some empty
cell may pair with any `y` appearing as the column of some (possibly
different) empty cell.  The drawn pair is the explicit input here; the
guard states exactly the membership the two draws guarantee. -/

/-- One placement of `Agent.__init__` at the drawn coordinates `(x, y)`:
admissible whenever `x` occurs in `no_obj[0]` and `y` occurs in
`no_obj[1]`; the agent is placed at `z = soil_height` and the cell is
overwritten with `AgentOccupied`. -/
def agentInit (w : World) (x y : ℕ) : Option (Agent × World) :=
  if (∃ j ∈ Finset.range w.length, w.grid x j w.soil_height = 0) ∧
     (∃ i ∈ Finset.range w.width, w.grid i y w.soil_height = 0) ∧
     x < w.width ∧ y < w.length then
    some (⟨((x : ℤ), (y : ℤ), (w.soil_height : ℤ)), 0⟩,
      setCell w x y w.soil_height (-2))
  else none

/-- Place a list of agents in order, as the simulation drivers do with
`[Agent(world) for i in range(num_agents)]`. -/
def placeAgents (w : World) (draws : List (ℕ × ℕ)) :
    Option (List Agent × World) :=
  match draws with
  | [] => some ([], w)
  | (x, y) :: rest =>
    match agentInit w x y with
    | none => none
    | some (a, w1) =>
      match placeAgents w1 rest with
      | none => none
      | some (others, w2) => some (a :: others, w2)

/-- The number of grid cells holding the `AgentOccupied` code. -/
def occCount (w : World) : ℕ :=
  (((Finset.range w.width) ×ˢ (Finset.range w.length) ×ˢ
    (Finset.range w.height)).filter
    (fun c => w.grid c.1 c.2.1 c.2.2 = -2)).card

/-- C1 fails on the code: in a 2×2×2 world with soil height 1 and no
obstacles, the first agent draws `(x, y) = (0, 0)`; the second agent's
draws `x = 0` (row of the empty cell `(0, 1)`) and `y = 0` (column of
the empty cell `(1, 0)`) are both admissible, so it is placed on the
SAME voxel `(0, 0, 1)`.  The resulting reachable state has 2 live
agents but only 1 `AgentOccupied` cell, violating the claimed invariant
`count(AgentOccupied) = live agents`. -/
theorem C1_placement_collision :
    (placeAgents (World.init 2 2 2 1 []) [(0, 0), (0, 0)]).map
      (fun s => (s.1.length, occCount s.2)) = some (2, 1) := by
  decide

/-! Bounds behaviour of grid accesses (claim C7). -/

/-- All three components of a coordinate are accepted by numpy for this
grid. -/
def inIdx3 (w : World) (p : Pos) : Prop :=
  inIdx w.width p.1 ∧ inIdx w.length p.2.1 ∧ inIdx w.height p.2.2

instance (w : World) (p : Pos) : Decidable (inIdx3 w p) := by
  unfold inIdx3; infer_instance

/-- The canonical cell a coordinate resolves to (negative components
wrap). -/
def wrap3 (w : World) (p : Pos) : ℕ × ℕ × ℕ :=
  (npWrap w.width p.1, npWrap w.length p.2.1, npWrap w.height p.2.2)

/-- Write at a canonical cell triple. -/
def setCell3 (w : World) (c : ℕ × ℕ × ℕ) (v : ℤ) : World :=
  setCell w c.1 c.2.1 c.2.2 v

theorem resolve_eq_some (w : World) (p : Pos) (h : inIdx3 w p) :
    resolve w p = some (wrap3 w p) := by
  obtain ⟨h1, h2, h3⟩ := h
  unfold resolve
  rw [npIndex_eq_some_wrap _ _ h1, npIndex_eq_some_wrap _ _ h2,
    npIndex_eq_some_wrap _ _ h3]
  rfl

theorem resolve_eq_none (w : World) (p : Pos) (h : ¬ inIdx3 w p) :
    resolve w p = none := by
  unfold resolve
  by_cases h1 : inIdx w.width p.1
  · rw [npIndex_eq_some_wrap _ _ h1]
    by_cases h2 : inIdx w.length p.2.1
    · rw [npIndex_eq_some_wrap _ _ h2]
      have h3 : ¬ inIdx w.height p.2.2 := fun h3 => h ⟨h1, h2, h3⟩
      rw [npIndex_eq_none _ _ h3]
    · rw [npIndex_eq_none _ _ h2]
  · rw [npIndex_eq_none _ _ h1]

theorem except_bind_ok {α β : Type} (x : α) (f : α → Except String β) :
    (Except.ok x : Except String α) >>= f = f x := rfl

theorem except_bind_err {α β : Type} (e : String) (f : α → Except String β) :
    (Except.error e : Except String α) >>= f = Except.error e := rfl

theorem gridSet_ok (w : World) (p : Pos) (v : ℤ) (h : inIdx3 w p) :
    gridSet w p v = .ok (setCell3 w (wrap3 w p) v) := by
  unfold gridSet
  rw [resolve_eq_some w p h]
  rfl

theorem gridSet_err (w : World) (p : Pos) (v : ℤ) (h : ¬ inIdx3 w p) :
    gridSet w p v = .error "IndexError" := by
  unfold gridSet
  rw [resolve_eq_none w p h]

/-- C7 (amended): grid coordinates follow numpy indexing, not the
specification's BoundsError design.  `Agent.move` from an in-range
position: (1) when every component of the target lies in
`[-size, size)`, the move succeeds, silently WRAPPING each negative
component to `size + c` — no error is raised; (2) only when some
component falls outside `[-size, size)` does the access fail, and then
with numpy's `IndexError`, not a BoundsError. -/
theorem C7_numpy_indexing (w : World) (a : Agent) (p : Pos)
    (hs : inIdx3 w a.pos) :
    (inIdx3 w p →
      Agent.move a w p = .ok (⟨p, a.has_pellet⟩,
        setCell3 (setCell3 w (wrap3 w a.pos) 0) (wrap3 w p) (-2))) ∧
    (¬ inIdx3 w p → Agent.move a w p = .error "IndexError") := by
  constructor
  · intro hp
    unfold Agent.move
    rw [gridSet_ok w a.pos 0 hs]
    simp only [except_bind_ok]
    rw [gridSet_ok (setCell3 w (wrap3 w a.pos) 0) p (-2) hp]
    simp only [except_bind_ok]
    rfl
  · intro hp
    unfold Agent.move
    rw [gridSet_ok w a.pos 0 hs]
    simp only [except_bind_ok]
    rw [gridSet_err (setCell3 w (wrap3 w a.pos) 0) p (-2) hp]
    simp only [except_bind_err]

/-- Counterexample to C7 as stated: moving the agent to the coordinate
`(-1, 0, 1)` — a negative component — raises nothing: the move returns
successfully, the agent's stored position is the negative coordinate
and the `AgentOccupied` write lands on the wrapped canonical cell
`(1, 0, 1)`.  No BoundsError exists; nothing was rejected. -/
theorem C7_counterexample :
    (Agent.move ⟨((0 : ℤ), 0, 1), 0⟩ (World.init 2 2 2 1 [])
      ((-1 : ℤ), 0, 1)).toOption.map
      (fun s => (s.1.pos, s.2.grid 1 0 1)) =
    some (((-1 : ℤ), (0 : ℤ), (1 : ℤ)), (-2 : ℤ)) := by
  decide

/-- Witness for C7 at concrete inputs: an in-range negative target
coordinate wraps and succeeds, and a target with a component `≥ size`
raises `IndexError`. -/
theorem C7_numpy_indexing_witness :
    Agent.move ⟨((0 : ℤ), 0, 1), 0⟩ (World.init 2 2 2 1 [])
      ((-1 : ℤ), 0, 1) = .ok (⟨((-1 : ℤ), 0, 1), 0⟩,
        setCell3 (setCell3 (World.init 2 2 2 1 [])
          (wrap3 (World.init 2 2 2 1 []) ((0 : ℤ), 0, 1)) 0)
          (wrap3 (World.init 2 2 2 1 []) ((-1 : ℤ), 0, 1)) (-2)) ∧
    Agent.move ⟨((0 : ℤ), 0, 1), 0⟩ (World.init 2 2 2 1 [])
      ((5 : ℤ), 0, 0) = .error "IndexError" :=
  ⟨(C7_numpy_indexing (World.init 2 2 2 1 []) ⟨((0 : ℤ), 0, 1), 0⟩
      ((-1 : ℤ), 0, 1) (by decide)).1 (by decide),
   (C7_numpy_indexing (World.init 2 2 2 1 []) ⟨((0 : ℤ), 0, 1), 0⟩
      ((5 : ℤ), 0, 0) (by decide)).2 (by decide)⟩

/-! Effect of an accepted pickup on the agent (claim C9). -/

theorem wrap3_setCell3 (w : World) (c : ℕ × ℕ × ℕ) (v : ℤ) (p : Pos) :
    wrap3 (setCell3 w c v) p = wrap3 w p := rfl

/-- C9: an accepted pickup relocates the agent one voxel downward into
the cell it just emptied: afterwards the position is `(x, y, z - 1)`,
that cell holds `AgentOccupied`, the former cell `(x, y, z)` holds
`Empty`, and the carrying flag is 1. -/
theorem C9_pickup_effect (w : World) (a : Agent) (x y z : ℕ)
    (hpos : a.pos = ((x : ℤ), (y : ℤ), (z : ℤ)))
    (hx : x < w.width) (hy : y < w.length) (hz1 : 1 ≤ z) (hz : z < w.height) :
    ∃ w3 : World,
      Agent.pickup a w = .ok (⟨((x : ℤ), (y : ℤ), (z : ℤ) - 1), 1⟩, w3) ∧
      w3.grid x y (z - 1) = -2 ∧ w3.grid x y z = 0 := by
  have hin1 : inIdx3 w ((x : ℤ), (y : ℤ), (z : ℤ) - 1) := by
    unfold inIdx3 inIdx
    dsimp only
    omega
  have hin2 : inIdx3 w ((x : ℤ), (y : ℤ), (z : ℤ)) := by
    unfold inIdx3 inIdx
    dsimp only
    omega
  have hw1 : wrap3 w ((x : ℤ), (y : ℤ), (z : ℤ) - 1) = (x, y, z - 1) := by
    unfold wrap3 npWrap
    dsimp only
    rw [if_pos (by positivity : (0 : ℤ) ≤ (x : ℤ)),
      if_pos (by positivity : (0 : ℤ) ≤ (y : ℤ)),
      if_pos (by omega : (0 : ℤ) ≤ (z : ℤ) - 1)]
    simp only [Prod.mk.injEq]
    refine ⟨by omega, by omega, by omega⟩
  have hw2 : wrap3 w ((x : ℤ), (y : ℤ), (z : ℤ)) = (x, y, z) := by
    unfold wrap3 npWrap
    dsimp only
    rw [if_pos (by positivity : (0 : ℤ) ≤ (x : ℤ)),
      if_pos (by positivity : (0 : ℤ) ≤ (y : ℤ)),
      if_pos (by positivity : (0 : ℤ) ≤ (z : ℤ))]
    simp only [Prod.mk.injEq]
    refine ⟨by omega, by omega, by omega⟩
  have hcomp : Agent.pickup a w =
      .ok (⟨((x : ℤ), (y : ℤ), (z : ℤ) - 1), 1⟩,
        setCell3 (setCell3 (setCell3 w (x, y, z - 1) 0) (x, y, z) 0)
          (x, y, z - 1) (-2)) := by
    unfold Agent.pickup
    rw [hpos]
    dsimp only
    rw [gridSet_ok w ((x : ℤ), (y : ℤ), (z : ℤ) - 1) 0 hin1, hw1]
    simp only [except_bind_ok]
    rw [gridSet_ok (setCell3 w (x, y, z - 1) 0) ((x : ℤ), (y : ℤ), (z : ℤ)) 0 hin2,
      wrap3_setCell3, hw2]
    simp only [except_bind_ok]
    rw [gridSet_ok (setCell3 (setCell3 w (x, y, z - 1) 0) (x, y, z) 0)
      ((x : ℤ), (y : ℤ), (z : ℤ) - 1) (-2) hin1, wrap3_setCell3, wrap3_setCell3, hw1]
    simp only [except_bind_ok]
  refine ⟨_, hcomp, ?_, ?_⟩
  · simp [setCell3, setCell]
  · have hne : ¬ z = z - 1 := by omega
    simp [setCell3, setCell, hne]

/-- Witness for C9 in a 2×2×3 world with the agent at `(0, 0, 2)`. -/
theorem C9_pickup_effect_witness :
    ∃ w3 : World,
      Agent.pickup ⟨((0 : ℤ), (0 : ℤ), (2 : ℤ)), 0⟩ (World.init 2 2 3 1 []) =
        .ok (⟨((0 : ℤ), (0 : ℤ), (2 : ℤ) - 1), 1⟩, w3) ∧
      w3.grid 0 0 1 = -2 ∧ w3.grid 0 0 2 = 0 :=
  C9_pickup_effect (World.init 2 2 3 1 []) ⟨((0 : ℤ), (0 : ℤ), (2 : ℤ)), 0⟩
    0 0 2 rfl (by decide) (by decide) (by decide) (by decide)

/-- C5: whenever the action does not occur — the voxel below is not
pickup-eligible (`grid ≤ 0`), the uniform draw is not below the
acceptance probability, or no valid candidate move exists — both
algorithms return `None` as a plain no-op outcome, never an error, and
hand back the world with its grid and time tensor untouched. -/
theorem C5_rejection_noop :
    (∀ (w : World) (p : Pos) (r : ℝ) (b : ℤ),
      gridGet w (p.1, p.2.1, p.2.2 - 1) = .ok b → b ≤ 0 →
      pickup_algorithm p w r = .ok (none, w)) ∧
    (∀ (w : World) (p : Pos) (r : ℝ) (b : ℤ),
      gridGet w (p.1, p.2.1, p.2.2 - 1) = .ok b →
      ¬ r < prob_pickup (countBuilt w p) →
      pickup_algorithm p w r = .ok (none, w)) ∧
    (∀ (w : World) (p : Pos) (step : ℤ) (dr r : ℝ) (c : ℕ),
      valid_moves w p = [] →
      drop_algorithm p w step dr r c = .ok (none, w)) ∧
    (∀ (w : World) (p : Pos) (step : ℤ) (dr r : ℝ) (c : ℕ) (pb : ℝ),
      prob_drop (countBuilt w p) step (t_latest w p) dr (compute_height p w) =
        some pb →
      ¬ r < pb →
      drop_algorithm p w step dr r c = .ok (none, w)) := by
  refine ⟨?_, ?_, ?_, ?_⟩
  · intro w p r b hb hble
    unfold pickup_algorithm
    rw [hb]
    simp only [except_bind_ok]
    rw [if_neg (not_lt.mpr hble)]
  · intro w p r b hb hr
    unfold pickup_algorithm
    rw [hb]
    simp only [except_bind_ok]
    by_cases hb0 : 0 < b
    · rw [if_neg hr]
      simp [hb0]
    · rw [if_neg hb0]
  · intro w p step dr r c hm
    unfold drop_algorithm
    simp only [hm, eq_self_iff_true, if_true]
  · intro w p step dr r c pb hp hr
    unfold drop_algorithm
    by_cases hm : valid_moves w p = []
    · simp only [hm, eq_self_iff_true, if_true]
    · simp only [if_neg hm, hp]
      rw [if_neg hr]

/-- Witness for C5: an ineligible pickup (empty voxel below) in an
all-empty 2×2×2 world, and a drop with no candidate move in a 1×1×1
world, both return `(None, unchanged world)`. -/
theorem C5_rejection_noop_witness :
    pickup_algorithm ((0 : ℤ), (0 : ℤ), (1 : ℤ)) (World.init 2 2 2 0 []) 0 =
      .ok (none, World.init 2 2 2 0 []) ∧
    drop_algorithm ((0 : ℤ), (0 : ℤ), (0 : ℤ)) (World.init 1 1 1 0 []) 0 1 0 0 =
      .ok (none, World.init 1 1 1 0 []) :=
  ⟨C5_rejection_noop.1 (World.init 2 2 2 0 []) ((0 : ℤ), (0 : ℤ), (1 : ℤ)) 0 0
      (by decide) (by decide),
   C5_rejection_noop.2.2.1 (World.init 1 1 1 0 []) ((0 : ℤ), (0 : ℤ), (0 : ℤ))
      0 1 0 0 (by decide)⟩

/-! The drop-probability formula and its height-modulation table
(claims C3 and C10). -/

/-- The drop-probability formula as the specification states it:
`1 - e^(-(0.025 + 0.11 * N) * e^(-(now - t_latest) * decayRate))`. -/
noncomputable def dropProbFormula (N : ℕ) (t_now t_latest : ℤ)
    (decay_rate : ℝ) : ℝ :=
  1 - Real.exp (-(0.025 + 0.11 * (N : ℝ)) *
    Real.exp (-(((t_now - t_latest : ℤ) : ℝ)) * decay_rate))

theorem mod_list_length : mod_list.length = 200 := by
  unfold mod_list
  rw [List.length_map, List.length_range]

theorem mod_list_get_lt (k : ℕ) (hk : k < 200) :
    mod_list.get? k = some (skewnormCdf 8.582 2.866 3.727 ((k : ℝ) / 2)) := by
  unfold mod_list
  rw [List.get?_eq_getElem?, List.getElem?_map, List.getElem?_range hk]
  rfl

theorem mod_list_get_ge (k : ℕ) (hk : 200 ≤ k) : mod_list.get? k = none := by
  rw [List.get?_eq_none]
  simpa [mod_list_length] using hk

theorem eta_d_pos (N : ℕ) (hN : 0 < N) :
    eta_d N = 0.025 + 0.11 * (N : ℝ) := by
  unfold eta_d
  rw [if_neg (Nat.pos_iff_ne_zero.mp hN)]

/-- C3 (amended): `prob_drop` returns exactly `0.025` whenever `N = 0`,
for all time, decay and height arguments; for `N > 0` it returns the
spec's formula, left unmodulated at `h = 0` and multiplied by the
height-modulation table entry for `0 < h < 200` — the table's range;
at `h ≥ 200` the lookup raises instead (see `C3_counterexample`). -/
theorem C3_drop_probability :
    (∀ (t tl : ℤ) (dr : ℝ) (h : ℕ), prob_drop 0 t tl dr h = some 0.025) ∧
    (∀ (N : ℕ) (t tl : ℤ) (dr : ℝ), 0 < N →
      prob_drop N t tl dr 0 = some (dropProbFormula N t tl dr)) ∧
    (∀ (N : ℕ) (t tl : ℤ) (dr : ℝ) (h : ℕ), 0 < N → 0 < h → h < 200 →
      prob_drop N t tl dr h =
        some (dropProbFormula N t tl dr *
          skewnormCdf 8.582 2.866 3.727 ((h : ℝ) / 2))) := by
  refine ⟨?_, ?_, ?_⟩
  · intro t tl dr h
    simp [prob_drop]
  · intro N t tl dr hN
    unfold prob_drop
    rw [if_neg (Nat.pos_iff_ne_zero.mp hN)]
    simp only [gt_iff_lt, lt_irrefl, if_false]
    rw [eta_d_pos N hN]
    rfl
  · intro N t tl dr h hN hh hlt
    unfold prob_drop
    rw [if_neg (Nat.pos_iff_ne_zero.mp hN)]
    simp only [gt_iff_lt, hh, if_true]
    rw [mod_list_get_lt h hlt, eta_d_pos N hN]
    rfl

/-- Counterexample to C3 as stated: at `N = 1`, `h = 200` the code does
not return the modulated probability — the table lookup `mod_list[200]`
is out of range (numpy `IndexError`), so the call produces no value at
all. -/
theorem C3_counterexample : prob_drop 1 0 0 1 200 = none := by
  unfold prob_drop
  rw [if_neg (by omega : ¬ (1 : ℕ) = 0)]
  simp only [gt_iff_lt, Nat.zero_lt_succ, if_true]
  rw [mod_list_get_ge 200 le_rfl]
  rfl

/-- Witness for C3 at concrete arguments `N = 0` (any height, even past
the table) and `N = 1, h = 1`. -/
theorem C3_drop_probability_witness :
    prob_drop 0 7 (-4) 2 500 = some 0.025 ∧
    prob_drop 1 5 3 2 1 = some (dropProbFormula 1 5 3 2 *
      skewnormCdf 8.582 2.866 3.727 (((1 : ℕ) : ℝ) / 2)) :=
  ⟨C3_drop_probability.1 7 (-4) 2 500,
   C3_drop_probability.2.2 1 5 3 2 1 (by norm_num) (by norm_num) (by norm_num)⟩

/-- C10: the height-modulation table has exactly 200 entries — the
skew-normal CDF sampled at `k / 2` for `k = 0, …, 199`; for `N > 0` a
height `1 ≤ h ≤ 199` multiplies the probability by the entry at index
`h`; any `h ≥ 200` makes the lookup fail out of range (no value is
produced) rather than clamping to the last entry. -/
theorem C10_mod_table :
    mod_list.length = 200 ∧
    (∀ k : ℕ, k < 200 →
      mod_list.get? k = some (skewnormCdf 8.582 2.866 3.727 ((k : ℝ) / 2))) ∧
    (∀ (N : ℕ) (t tl : ℤ) (dr : ℝ) (h : ℕ), 0 < N → 1 ≤ h → h ≤ 199 →
      prob_drop N t tl dr h =
        some (dropProbFormula N t tl dr *
          skewnormCdf 8.582 2.866 3.727 ((h : ℝ) / 2))) ∧
    (∀ (N : ℕ) (t tl : ℤ) (dr : ℝ) (h : ℕ), 0 < N → 200 ≤ h →
      prob_drop N t tl dr h = none) := by
  refine ⟨mod_list_length, mod_list_get_lt, ?_, ?_⟩
  · intro N t tl dr h hN h1 h199
    exact C3_drop_probability.2.2 N t tl dr h hN (by omega) (by omega)
  · intro N t tl dr h hN h200
    unfold prob_drop
    rw [if_neg (Nat.pos_iff_ne_zero.mp hN)]
    simp only [gt_iff_lt, (by omega : 0 < h), if_true]
    rw [mod_list_get_ge h h200]
    rfl

/-- Witness for C10 at concrete indices: entry 3, a modulated drop at
`h = 7`, and the failing lookup at `h = 321`. -/
theorem C10_mod_table_witness :
    mod_list.length = 200 ∧
    mod_list.get? 3 = some (skewnormCdf 8.582 2.866 3.727 (((3 : ℕ) : ℝ) / 2)) ∧
    prob_drop 2 5 3 2 7 = some (dropProbFormula 2 5 3 2 *
      skewnormCdf 8.582 2.866 3.727 (((7 : ℕ) : ℝ) / 2)) ∧
    prob_drop 1 0 0 1 321 = none :=
  ⟨C10_mod_table.1,
   C10_mod_table.2.1 3 (by norm_num),
   C10_mod_table.2.2.1 2 5 3 2 7 (by norm_num) (by norm_num) (by norm_num),
   C10_mod_table.2.2.2 1 0 0 1 321 (by norm_num) (by norm_num)⟩

/-! Equivalence of the two local-walk variants (claim C8). -/

theorem walkDist_of_empty (w : World) (p : Pos)
    (h : valid_moves w p = []) : ∀ m : ℕ, walkDist w m p = PMF.pure p := by
  intro m
  induction m with
  | zero => rfl
  | succ m ih =>
    rw [walkDist, dif_pos h]
    exact ih

theorem walkDistNew_of_empty (w : World) (p : Pos)
    (h : valid_moves w p = []) : ∀ m : ℕ, walkDistNew w m p = PMF.pure p := by
  intro m
  cases m with
  | zero => rfl
  | succ m => rw [walkDistNew, dif_pos h]

/-- C8: the optimized direction-sampling walk is behaviorally
equivalent to the reference walk: for every world, start position and
step budget the end-of-tick position distributions are equal, and when
no valid move exists both stop where they are (the reference loop
idles through its remaining iterations, the optimized loop breaks —
same outcome). -/
theorem C8_local_walk_equiv (w : World) (m : ℕ) (p : Pos) :
    walkDist w m p = walkDistNew w m p ∧
    (valid_moves w p = [] →
      walkDist w m p = PMF.pure p ∧ walkDistNew w m p = PMF.pure p) := by
  constructor
  · induction m generalizing p with
    | zero => rfl
    | succ m ih =>
      by_cases h : valid_moves w p = []
      · rw [walkDist, walkDistNew, dif_pos h, dif_pos h,
          walkDist_of_empty w p h m]
      · rw [walkDist, walkDistNew, dif_neg h, dif_neg h]
        congr 1
        funext d
        exact ih (addPos p d)
  · intro h
    exact ⟨walkDist_of_empty w p h m, walkDistNew_of_empty w p h m⟩

/-- Witness for C8 in the 1×1×1 world, where no valid move exists. -/
theorem C8_local_walk_equiv_witness :
    walkDist (World.init 1 1 1 0 []) 5 ((0 : ℤ), (0 : ℤ), (0 : ℤ)) =
      walkDistNew (World.init 1 1 1 0 []) 5 ((0 : ℤ), (0 : ℤ), (0 : ℤ)) ∧
    walkDist (World.init 1 1 1 0 []) 5 ((0 : ℤ), (0 : ℤ), (0 : ℤ)) =
      PMF.pure ((0 : ℤ), (0 : ℤ), (0 : ℤ)) ∧
    walkDistNew (World.init 1 1 1 0 []) 5 ((0 : ℤ), (0 : ℤ), (0 : ℤ)) =
      PMF.pure ((0 : ℤ), (0 : ℤ), (0 : ℤ)) :=
  ⟨(C8_local_walk_equiv (World.init 1 1 1 0 []) 5
      ((0 : ℤ), (0 : ℤ), (0 : ℤ))).1,
   (C8_local_walk_equiv (World.init 1 1 1 0 []) 5
      ((0 : ℤ), (0 : ℤ), (0 : ℤ))).2 (by decide)⟩

end GridWorld3D
